import Mathlib

/-!
Verification of the catalog-publisher routine of the music-blog repository.

The embedding follows the TypeScript source:
  - getFileExt        from src/lib/utils.ts
  - pushMusic         from the music publish service (unnamed part_000)

External library functions that pushMusic calls (SHA-256 hashing, base64
encoding, JSON parse and stringify) and the remote GitHub REST operations
are abstracted as parameters of an environment; pushMusic is embedded as a
deterministic interpreter over that environment which records the ordered
trace of remote calls it makes and the final result (success or the first
propagated error).
-/

/-- A track of the catalog: MusicItem from the source. -/
structure MusicItem where
  name : String
  url : String
deriving DecidableEq, Repr

/-- A browser File: its name and its byte content. -/
structure FileData where
  name : String
  content : List Nat
deriving DecidableEq, Repr

/-- MusicFileItem from the source: a pending upload, with an optional
precomputed content hash. -/
structure MusicFileItem where
  file : FileData
  hash : Option String
deriving DecidableEq, Repr

/-- TreeItem of the GitHub tree API: sha = none encodes the JSON null sha
that deletes the path. -/
structure TreeItem where
  path : String
  mode : String
  type : String
  sha : Option String
deriving DecidableEq, Repr

/-- JS String.prototype.toLowerCase on the character sequence. -/
def strToLower (s : String) : String :=
  String.mk (s.data.map Char.toLower)

/-- JS String.prototype.endsWith: the pattern is a suffix of the character
sequence. -/
def strEndsWith (s pat : String) : Bool :=
  List.isSuffixOf pat.data s.data

/-- JS String.prototype.startsWith: the pattern leads the character
sequence. -/
def strStartsWith (s pat : String) : Bool :=
  List.isPrefixOf pat.data s.data

/-- getFileExt from src/lib/utils.ts, translated clause by clause. -/
def getFileExt (filename : String) : String :=
  let lower := strToLower filename
  if strEndsWith lower ".jpg" then ".jpg"
  else if strEndsWith lower ".jpeg" then ".jpeg"
  else if strEndsWith lower ".webp" then ".webp"
  else if strEndsWith lower ".png" then ".png"
  else if strEndsWith lower ".svg" then ".svg"
  else if strEndsWith lower ".mp3" then ".mp3"
  else if strEndsWith lower ".m4a" then ".m4a"
  else if strEndsWith lower ".wav" then ".wav"
  else if strEndsWith lower ".ogg" then ".ogg"
  else if strEndsWith lower ".flac" then ".flac"
  else if strEndsWith lower ".aac" then ".aac"
  else ".png"

/-- One remote operation performed by pushMusic, with its arguments.
The auth token, owner and repo are constants threaded through every call,
so they are omitted from the call records. -/
inductive Call where
  | getAuthToken : Call
  | getRef (ref : String) : Call
  | createBlob (content : String) (encoding : String) : Call
  | readTextFile (path : String) (ref : String) : Call
  | createTree (items : List TreeItem) (base : String) : Call
  | createCommit (message : String) (tree : String) (parents : List String) : Call
  | updateRef (ref : String) (sha : String) : Call
deriving DecidableEq, Repr

/-- Responses of the remote repository service.  Every operation that the
source awaits may reject with an error of type ε; readTextFile returns
none for a missing file. -/
structure Oracle (ε : Type) where
  getAuthToken : Except ε String
  getRef : String → Except ε String
  createBlob : String → String → Except ε String
  readTextFile : String → String → Option String
  createTree : List TreeItem → String → Except ε String
  createCommit : String → String → List String → Except ε String
  updateRef : String → String → Except ε Unit

/-- The environment of one pushMusic run: the remote oracle, the branch
name from GITHUB_CONFIG, and the pure library functions the source calls.
hashFile and fileToBase64 depend only on the file bytes; parseList models
JSON.parse into a MusicItem array (none = the parse throws); stringifyList
models JSON.stringify with tab indentation. -/
structure Env (ε : Type) where
  oracle : Oracle ε
  branch : String
  hashFile : List Nat → String
  fileToBase64 : List Nat → String
  toBase64Utf8 : String → String
  parseList : String → Option (List MusicItem)
  stringifyList : List MusicItem → String

/-- The hash used for a pending upload: the precomputed hash when present
and non-empty (JS truthiness of the optional string), else the hash of the
file content. -/
def hashOf {ε : Type} (env : Env ε) (it : MusicFileItem) : String :=
  match it.hash with
  | some h => if h = "" then env.hashFile it.file.content else h
  | none => env.hashFile it.file.content

/-- The stored filename of a pending upload: hash plus extension. -/
def filenameOf {ε : Type} (env : Env ε) (it : MusicFileItem) : String :=
  hashOf env it ++ getFileExt it.file.name

/-- The canonical public path a pending upload is remapped to. -/
def publicPathOf {ε : Type} (env : Env ε) (it : MusicFileItem) : String :=
  "/music/" ++ filenameOf env it

/-- The URL rewrite applied per track: a track whose url equals the
transient key gets the canonical public path. -/
def remapTrack (key path : String) (m : MusicItem) : MusicItem :=
  if m.url = key then { m with url := path } else m

/-- State threaded through the upload loop of pushMusic: the accumulated
tree entries, the set of hashes already uploaded in this call (in
insertion order), the music list with transient keys rewritten so far,
and the trace of remote calls made so far. -/
structure UploadState where
  treeItems : List TreeItem
  uploadedHashes : List String
  updatedMusicList : List MusicItem
  trace : List Call
deriving DecidableEq, Repr

/-- The upload loop of pushMusic (lines 43-66 of the source): for each
pending upload, compute hash, filename and public path; if the hash was
not uploaded yet, create a blob and record an add entry; in either case
remap tracks whose url equals the transient key.  A createBlob rejection
aborts the loop with that error. -/
def processUploads {ε : Type} (env : Env ε) :
    List (String × MusicFileItem) → UploadState → UploadState × Option ε
  | [], st => (st, none)
  | (url, it) :: rest, st =>
    let hash := hashOf env it
    let publicPath := "/music/" ++ (hash ++ getFileExt it.file.name)
    if hash ∈ st.uploadedHashes then
      processUploads env rest
        { st with updatedMusicList := st.updatedMusicList.map (remapTrack url publicPath) }
    else
      let path := "public/music/" ++ (hash ++ getFileExt it.file.name)
      let contentBase64 := env.fileToBase64 it.file.content
      match env.oracle.createBlob contentBase64 "base64" with
      | .error e =>
        ({ st with trace := st.trace ++ [Call.createBlob contentBase64 "base64"] }, some e)
      | .ok blobSha =>
        processUploads env rest
          { treeItems := st.treeItems ++ [⟨path, "100644", "blob", some blobSha⟩]
            uploadedHashes := st.uploadedHashes ++ [hash]
            updatedMusicList := st.updatedMusicList.map (remapTrack url publicPath)
            trace := st.trace ++ [Call.createBlob contentBase64 "base64"] }

/-- One step of building the owned-url set: insert the url when it starts
with /music/ and is not already present (JS Set insertion semantics). -/
def collectOwnedStep (acc : List String) (m : MusicItem) : List String :=
  if strStartsWith m.url "/music/" then
    if m.url ∈ acc then acc else acc ++ [m.url]
  else acc

/-- The owned urls of a list, as the source builds them: iterate the list,
keeping the first occurrence of each url starting with /music/, in
order. -/
def collectOwned (l : List MusicItem) : List String :=
  l.foldl collectOwnedStep []

/-- JS String.replace with a string pattern replaces only the first
occurrence: scan left to right and substitute at the first position where
the pattern matches. -/
def replaceFirstList (pat repl : List Char) : List Char → List Char
  | [] => if List.isPrefixOf pat [] then repl else []
  | c :: cs =>
    if List.isPrefixOf pat (c :: cs) then repl ++ (c :: cs).drop pat.length
    else c :: replaceFirstList pat repl cs

/-- JS String.replace with a string pattern, on strings. -/
def replaceFirst (s pat repl : String) : String :=
  String.mk (replaceFirstList pat.data repl.data s.data)

/-- The delete tree entry the source pushes for a stale owned url
(lines 101-108): sha null at public/music/ plus the url with its first
/music/ removed. -/
def deleteEntryFor (url : String) : TreeItem :=
  { path := "public/music/" ++ replaceFirst url "/music/" ""
    mode := "100644"
    type := "blob"
    sha := none }

/-- The owned urls of the previous manifest that the post-remap list no
longer references, in the iteration order of the source. -/
def staleOwnedUrls (prev curr : List MusicItem) : List String :=
  (collectOwned prev).filter (fun u => decide (u ∉ collectOwned curr))

/-- The delete entries appended by the stale-file scan. -/
def computeDeleteEntries (prev curr : List MusicItem) : List TreeItem :=
  (staleOwnedUrls prev curr).map deleteEntryFor

/-- The fixed repository path of the manifest. -/
def manifestPath : String := "src/app/music/list.json"

/-- The tree entry replacing the manifest with a freshly created blob. -/
def manifestEntry (sha : String) : TreeItem :=
  ⟨manifestPath, "100644", "blob", some sha⟩

/-- The fixed commit message of pushMusic. -/
def commitMessage : String := "更新音乐列表"

/-- The delete entries pushMusic produces given the environment and the
post-remap list: none when the previous manifest is absent, none when it
fails to parse (the source catches the exception), else the stale-scan
entries. -/
def deletesOf {ε : Type} (env : Env ε) (curr : List MusicItem) : List TreeItem :=
  match env.oracle.readTextFile manifestPath env.branch with
  | none => []
  | some s =>
    match env.parseList s with
    | none => []
    | some prev => computeDeleteEntries prev curr

/-- The upload items actually iterated: the map entries when the map is
present and non-empty, nothing otherwise. -/
def itemsOfParam (mfi : Option (List (String × MusicFileItem))) :
    List (String × MusicFileItem) :=
  match mfi with
  | some l => if 0 < l.length then l else []
  | none => []

/-- The observable outcome of one pushMusic run: the ordered remote call
trace and the result. -/
structure PushOutcome (ε : Type) where
  trace : List Call
  result : Except ε Unit
deriving Repr

/-- pushMusic, embedded as an interpreter over the environment.  Each
await of the source becomes a match on the oracle response: an error stops
the run with the calls made so far; toast notifications are pure status
output and are not modelled. -/
def pushMusic {ε : Type} (env : Env ε) (musicList : List MusicItem)
    (musicFileItems : Option (List (String × MusicFileItem))) : PushOutcome ε :=
  match env.oracle.getAuthToken with
  | .error e => ⟨[Call.getAuthToken], .error e⟩
  | .ok _token =>
  match env.oracle.getRef ("heads/" ++ env.branch) with
  | .error e => ⟨[Call.getAuthToken, Call.getRef ("heads/" ++ env.branch)], .error e⟩
  | .ok latestCommitSha =>
  let pre : List Call := [Call.getAuthToken, Call.getRef ("heads/" ++ env.branch)]
  match processUploads env (itemsOfParam musicFileItems) ⟨[], [], musicList, []⟩ with
  | (st, some e) => ⟨pre ++ st.trace, .error e⟩
  | (st, none) =>
  let readCall := Call.readTextFile manifestPath env.branch
  let treeItems1 := st.treeItems ++ deletesOf env st.updatedMusicList
  let manifestContent := env.toBase64Utf8 (env.stringifyList st.updatedMusicList)
  match env.oracle.createBlob manifestContent "base64" with
  | .error e =>
    ⟨pre ++ st.trace ++ [readCall, Call.createBlob manifestContent "base64"], .error e⟩
  | .ok musicBlobSha =>
  let allItems := treeItems1 ++ [manifestEntry musicBlobSha]
  match env.oracle.createTree allItems latestCommitSha with
  | .error e =>
    ⟨pre ++ st.trace ++ [readCall, Call.createBlob manifestContent "base64",
      Call.createTree allItems latestCommitSha], .error e⟩
  | .ok treeSha =>
  match env.oracle.createCommit commitMessage treeSha [latestCommitSha] with
  | .error e =>
    ⟨pre ++ st.trace ++ [readCall, Call.createBlob manifestContent "base64",
      Call.createTree allItems latestCommitSha,
      Call.createCommit commitMessage treeSha [latestCommitSha]], .error e⟩
  | .ok commitSha =>
  match env.oracle.updateRef ("heads/" ++ env.branch) commitSha with
  | .error e =>
    ⟨pre ++ st.trace ++ [readCall, Call.createBlob manifestContent "base64",
      Call.createTree allItems latestCommitSha,
      Call.createCommit commitMessage treeSha [latestCommitSha],
      Call.updateRef ("heads/" ++ env.branch) commitSha], .error e⟩
  | .ok _ =>
    ⟨pre ++ st.trace ++ [readCall, Call.createBlob manifestContent "base64",
      Call.createTree allItems latestCommitSha,
      Call.createCommit commitMessage treeSha [latestCommitSha],
      Call.updateRef ("heads/" ++ env.branch) commitSha], .ok ()⟩

/-- The extensions getFileExt recognizes, in source order. -/
def recognizedExts : List String :=
  [".jpg", ".jpeg", ".webp", ".png", ".svg", ".mp3", ".m4a", ".wav", ".ogg", ".flac", ".aac"]

/-- Whether a remote call is a tree creation. -/
def isTreeCall : Call → Bool
  | Call.createTree _ _ => true
  | _ => false

/-- A remote service where every operation succeeds with a fixed sha and
no previous manifest exists; used to evaluate the model on concrete
inputs. -/
def testOracle : Oracle String where
  getAuthToken := .ok "tok"
  getRef := fun _ => .ok "tip"
  createBlob := fun _ _ => .ok "bsha"
  readTextFile := fun _ _ => none
  createTree := fun _ _ => .ok "tsha"
  createCommit := fun _ _ _ => .ok "csha"
  updateRef := fun _ _ => .ok ()

/-- A concrete environment over testOracle with degenerate but explicit
library functions: every file hashes to "h", serialization is a fixed
token. -/
def testEnv : Env String where
  oracle := testOracle
  branch := "main"
  hashFile := fun _ => "h"
  fileToBase64 := fun _ => "b64"
  toBase64Utf8 := fun s => s
  parseList := fun _ => none
  stringifyList := fun _ => "json"

/-- testEnv, except the final ref update is rejected by the remote. -/
def conflictEnv : Env String :=
  { testEnv with oracle := { testOracle with updateRef := fun _ _ => .error "conflict" } }

/-- testEnv, except a previous manifest exists but fails to parse. -/
def badParseEnv : Env String :=
  { testEnv with oracle := { testOracle with readTextFile := fun _ _ => some "notjson" } }

/-- testEnv, except a previous manifest exists and parses to the given
list. -/
def prevListEnv (prev : List MusicItem) : Env String :=
  { testEnv with
    oracle := { testOracle with readTextFile := fun _ _ => some "prev" }
    parseList := fun s => if s = "prev" then some prev else none }

/-! ## Properties of the stale-file scan -/

lemma mem_collectOwnedStep (acc : List String) (m : MusicItem) (u : String) :
    u ∈ collectOwnedStep acc m ↔
      u ∈ acc ∨ (strStartsWith u "/music/" = true ∧ m.url = u) := by
  unfold collectOwnedStep
  by_cases hs : strStartsWith m.url "/music/" = true
  · by_cases hm : m.url ∈ acc
    · simp only [hs, if_true, hm, if_true]
      constructor
      · exact fun h => Or.inl h
      · rintro (h | ⟨_, rfl⟩)
        · exact h
        · exact hm
    · simp only [hs, if_true, hm, if_false, List.mem_append, List.mem_singleton]
      constructor
      · rintro (h | rfl)
        · exact Or.inl h
        · exact Or.inr ⟨hs, rfl⟩
      · rintro (h | ⟨_, rfl⟩)
        · exact Or.inl h
        · exact Or.inr rfl
  · simp only [hs, if_false]
    constructor
    · exact fun h => Or.inl h
    · rintro (h | ⟨hu, rfl⟩)
      · exact h
      · exact absurd hu hs

lemma mem_foldl_collectOwnedStep (l : List MusicItem) :
    ∀ (acc : List String) (u : String),
      u ∈ l.foldl collectOwnedStep acc ↔
        u ∈ acc ∨ (strStartsWith u "/music/" = true ∧ ∃ m ∈ l, m.url = u) := by
  induction l with
  | nil => intro acc u; simp
  | cons m l ih =>
    intro acc u
    rw [List.foldl_cons, ih, mem_collectOwnedStep]
    constructor
    · rintro ((h | ⟨hu, hm⟩) | ⟨hu, mm, hmm, hmu⟩)
      · exact Or.inl h
      · exact Or.inr ⟨hu, m, List.mem_cons_self m l, hm⟩
      · exact Or.inr ⟨hu, mm, List.mem_cons_of_mem m hmm, hmu⟩
    · rintro (h | ⟨hu, mm, hmm, hmu⟩)
      · exact Or.inl (Or.inl h)
      · rcases List.mem_cons.mp hmm with rfl | hmm
        · exact Or.inl (Or.inr ⟨hu, hmu⟩)
        · exact Or.inr ⟨hu, mm, hmm, hmu⟩

lemma mem_collectOwned (l : List MusicItem) (u : String) :
    u ∈ collectOwned l ↔
      strStartsWith u "/music/" = true ∧ ∃ m ∈ l, m.url = u := by
  rw [collectOwned, mem_foldl_collectOwnedStep]
  simp

lemma mem_staleOwnedUrls (prev curr : List MusicItem) (u : String) :
    u ∈ staleOwnedUrls prev curr ↔
      strStartsWith u "/music/" = true ∧ (∃ m ∈ prev, m.url = u) ∧
        ¬ ∃ m ∈ curr, m.url = u := by
  rw [staleOwnedUrls, List.mem_filter, mem_collectOwned]
  rw [decide_eq_true_iff]
  constructor
  · rintro ⟨⟨hu, hprev⟩, hnc⟩
    refine ⟨hu, hprev, fun hcurr => hnc ?_⟩
    exact (mem_collectOwned curr u).mpr ⟨hu, hcurr⟩
  · rintro ⟨hu, hprev, hnc⟩
    refine ⟨⟨hu, hprev⟩, fun hc => hnc ?_⟩
    exact ((mem_collectOwned curr u).mp hc).2

/-- C1: the stale-file scan produces a delete entry (sha null, path
public/music/ plus the url stripped of its leading /music/) for exactly
those urls that are owned, referenced by the previous manifest, and not
referenced by the post-remap desired list. -/
theorem delete_entries_exactly_stale_owned (prev curr : List MusicItem) :
    computeDeleteEntries prev curr = (staleOwnedUrls prev curr).map deleteEntryFor ∧
    (∀ u, u ∈ staleOwnedUrls prev curr ↔
      strStartsWith u "/music/" = true ∧ (∃ m ∈ prev, m.url = u) ∧
        ¬ ∃ m ∈ curr, m.url = u) ∧
    (∀ u, deleteEntryFor u =
      ⟨"public/music/" ++ replaceFirst u "/music/" "", "100644", "blob", none⟩) := by
  refine ⟨rfl, fun u => mem_staleOwnedUrls prev curr u, fun u => rfl⟩

/-- C5: a url of the previous manifest that does not start with the owned
/music/ never appears among the stale urls proposed for deletion, whether
or not it reappears in the new list. -/
theorem external_urls_never_deleted (prev curr : List MusicItem) (u : String)
    (h : strStartsWith u "/music/" = false) :
    u ∉ staleOwnedUrls prev curr := by
  intro hmem
  have := ((mem_staleOwnedUrls prev curr u).mp hmem).1
  rw [h] at this
  exact Bool.false_ne_true this

theorem external_urls_never_deleted_witness :
    strStartsWith "https://example.com/a.mp3" "/music/" = false ∧
      "https://example.com/a.mp3" ∉
        staleOwnedUrls [⟨"A", "https://example.com/a.mp3"⟩] [] :=
  ⟨by decide,
    external_urls_never_deleted [⟨"A", "https://example.com/a.mp3"⟩] []
      "https://example.com/a.mp3" (by decide)⟩

/-! ## The extension fallback of getFileExt -/

/-- C9: a filename whose lowercase form ends in none of the recognized
extensions gets the image fallback .png, so the stored filename of such a
pending upload is its hash followed by .png even for audio content. -/
theorem unrecognized_filename_defaults_png (fn : String)
    (h : ∀ e ∈ recognizedExts, strEndsWith (strToLower fn) e = false) :
    getFileExt fn = ".png" ∧
    ∀ (ε : Type) (env : Env ε) (it : MusicFileItem), it.file.name = fn →
      filenameOf env it = hashOf env it ++ ".png" ∧
      publicPathOf env it = "/music/" ++ (hashOf env it ++ ".png") := by
  have hpng : getFileExt fn = ".png" := by
    have h1 := h ".jpg" (by simp [recognizedExts])
    have h2 := h ".jpeg" (by simp [recognizedExts])
    have h3 := h ".webp" (by simp [recognizedExts])
    have h4 := h ".png" (by simp [recognizedExts])
    have h5 := h ".svg" (by simp [recognizedExts])
    have h6 := h ".mp3" (by simp [recognizedExts])
    have h7 := h ".m4a" (by simp [recognizedExts])
    have h8 := h ".wav" (by simp [recognizedExts])
    have h9 := h ".ogg" (by simp [recognizedExts])
    have h10 := h ".flac" (by simp [recognizedExts])
    have h11 := h ".aac" (by simp [recognizedExts])
    simp [getFileExt, h1, h2, h3, h4, h5, h6, h7, h8, h9, h10, h11]
  refine ⟨hpng, fun ε env it hname => ?_⟩
  constructor
  · rw [filenameOf, hname, hpng]
  · rw [publicPathOf, filenameOf, hname, hpng]

theorem unrecognized_filename_defaults_png_witness :
    (∀ e ∈ recognizedExts, strEndsWith (strToLower "track-without-suffix") e = false) ∧
      getFileExt "track-without-suffix" = ".png" :=
  ⟨by decide, (unrecognized_filename_defaults_png "track-without-suffix" (by decide)).1⟩

/-! ## Content deduplication within one publish call -/

lemma processUploads_pair {ε : Type} (env : Env ε) (k1 k2 : String)
    (i1 i2 : MusicFileItem) (ml : List MusicItem) (b : String)
    (hh : hashOf env i2 = hashOf env i1)
    (hb : env.oracle.createBlob (env.fileToBase64 i1.file.content) "base64" = .ok b) :
    processUploads env [(k1, i1), (k2, i2)] ⟨[], [], ml, []⟩ =
      (⟨[⟨"public/music/" ++ filenameOf env i1, "100644", "blob", some b⟩],
        [hashOf env i1],
        (ml.map (remapTrack k1 (publicPathOf env i1))).map (remapTrack k2 (publicPathOf env i2)),
        [Call.createBlob (env.fileToBase64 i1.file.content) "base64"]⟩, none) := by
  simp [processUploads, hb, hh, filenameOf, publicPathOf]

/-- C3: for two pending uploads whose files have identical byte content
(hashes computed from content), the loop makes exactly one createBlob call
and records exactly one add tree entry, while the second upload still
remaps tracks carrying its transient key (to the path formed from its own
filename extension). -/
theorem identical_content_single_blob (env : Env String) (k1 k2 : String)
    (i1 i2 : MusicFileItem) (ml : List MusicItem) (b : String)
    (hc : i1.file.content = i2.file.content)
    (hh1 : i1.hash = none) (hh2 : i2.hash = none)
    (hb : env.oracle.createBlob (env.fileToBase64 i1.file.content) "base64" = .ok b) :
    processUploads env [(k1, i1), (k2, i2)] ⟨[], [], ml, []⟩ =
      (⟨[⟨"public/music/" ++ filenameOf env i1, "100644", "blob", some b⟩],
        [hashOf env i1],
        (ml.map (remapTrack k1 (publicPathOf env i1))).map (remapTrack k2 (publicPathOf env i2)),
        [Call.createBlob (env.fileToBase64 i1.file.content) "base64"]⟩, none) := by
  have hh : hashOf env i2 = hashOf env i1 := by
    simp [hashOf, hh1, hh2, hc]
  exact processUploads_pair env k1 k2 i1 i2 ml b hh hb

theorem identical_content_single_blob_witness :
    processUploads testEnv
        [("k1", ⟨⟨"a.mp3", [0]⟩, none⟩), ("k2", ⟨⟨"a.wav", [0]⟩, none⟩)]
        ⟨[], [], [⟨"A", "k1"⟩, ⟨"B", "k2"⟩], []⟩ =
      (⟨[⟨"public/music/h.mp3", "100644", "blob", some "bsha"⟩], ["h"],
        [⟨"A", "/music/h.mp3"⟩, ⟨"B", "/music/h.wav"⟩],
        [Call.createBlob "b64" "base64"]⟩, none) :=
  (identical_content_single_blob testEnv "k1" "k2" ⟨⟨"a.mp3", [0]⟩, none⟩
    ⟨⟨"a.wav", [0]⟩, none⟩ [⟨"A", "k1"⟩, ⟨"B", "k2"⟩] "bsha" rfl rfl rfl rfl).trans
    (by decide)

/-- C2 as stated is false: dedup is by content hash alone, but the stored
path carries the extension of each upload's own filename, so identical
content under different extensions yields different canonical paths, and
the two transient keys are remapped to different urls (the second one
dangling). -/
theorem content_dedup_same_path_counterexample :
    (MusicFileItem.mk ⟨"a.mp3", [0]⟩ none).file.content =
        (MusicFileItem.mk ⟨"a.wav", [0]⟩ none).file.content ∧
    publicPathOf testEnv ⟨⟨"a.mp3", [0]⟩, none⟩ = "/music/h.mp3" ∧
    publicPathOf testEnv ⟨⟨"a.wav", [0]⟩, none⟩ = "/music/h.wav" ∧
    ("/music/h.mp3" : String) ≠ "/music/h.wav" ∧
    (processUploads testEnv
        [("k1", ⟨⟨"a.mp3", [0]⟩, none⟩), ("k2", ⟨⟨"a.wav", [0]⟩, none⟩)]
        ⟨[], [], [⟨"A", "k1"⟩, ⟨"B", "k2"⟩], []⟩).1.updatedMusicList =
      [⟨"A", "/music/h.mp3"⟩, ⟨"B", "/music/h.wav"⟩] :=
  ⟨rfl, by decide, by decide, by decide, by decide⟩

/-- C2 amended: when the two identical-content uploads also carry
filenames with the same recognized extension (so getFileExt agrees), both
canonical paths coincide and every track holding either transient key is
remapped to that same canonical public path, while only one blob is
created and stored once. -/
theorem content_dedup_same_path_same_ext (env : Env String) (k1 k2 : String)
    (i1 i2 : MusicFileItem) (ml : List MusicItem) (b : String)
    (hc : i1.file.content = i2.file.content)
    (hh1 : i1.hash = none) (hh2 : i2.hash = none)
    (hext : getFileExt i1.file.name = getFileExt i2.file.name)
    (hb : env.oracle.createBlob (env.fileToBase64 i1.file.content) "base64" = .ok b) :
    publicPathOf env i1 = publicPathOf env i2 ∧
    processUploads env [(k1, i1), (k2, i2)] ⟨[], [], ml, []⟩ =
      (⟨[⟨"public/music/" ++ filenameOf env i1, "100644", "blob", some b⟩],
        [hashOf env i1],
        (ml.map (remapTrack k1 (publicPathOf env i1))).map (remapTrack k2 (publicPathOf env i1)),
        [Call.createBlob (env.fileToBase64 i1.file.content) "base64"]⟩, none) := by
  have hh : hashOf env i2 = hashOf env i1 := by
    simp [hashOf, hh1, hh2, hc]
  have hpp : publicPathOf env i1 = publicPathOf env i2 := by
    rw [publicPathOf, publicPathOf, filenameOf, filenameOf, hh, hext]
  refine ⟨hpp, ?_⟩
  rw [processUploads_pair env k1 k2 i1 i2 ml b hh hb, ← hpp]

theorem content_dedup_same_path_same_ext_witness :
    publicPathOf testEnv ⟨⟨"a.mp3", [0]⟩, none⟩ =
        publicPathOf testEnv ⟨⟨"b.mp3", [0]⟩, none⟩ ∧
    processUploads testEnv
        [("k1", ⟨⟨"a.mp3", [0]⟩, none⟩), ("k2", ⟨⟨"b.mp3", [0]⟩, none⟩)]
        ⟨[], [], [⟨"A", "k1"⟩, ⟨"B", "k2"⟩], []⟩ =
      (⟨[⟨"public/music/h.mp3", "100644", "blob", some "bsha"⟩], ["h"],
        [⟨"A", "/music/h.mp3"⟩, ⟨"B", "/music/h.mp3"⟩],
        [Call.createBlob "b64" "base64"]⟩, none) := by
  have h := content_dedup_same_path_same_ext testEnv "k1" "k2" ⟨⟨"a.mp3", [0]⟩, none⟩
    ⟨⟨"b.mp3", [0]⟩, none⟩ [⟨"A", "k1"⟩, ⟨"B", "k2"⟩] "bsha" rfl rfl rfl (by decide) rfl
  exact ⟨h.1, h.2.trans (by decide)⟩

/-! ## Structure of a successful publish -/

lemma pushMusic_ok {ε : Type} (env : Env ε) (ml : List MusicItem)
    (mfi : Option (List (String × MusicFileItem)))
    (tok tip : String) (st : UploadState) (mb ts cs : String)
    (ht : env.oracle.getAuthToken = .ok tok)
    (hr : env.oracle.getRef ("heads/" ++ env.branch) = .ok tip)
    (hpu : processUploads env (itemsOfParam mfi) ⟨[], [], ml, []⟩ = (st, none))
    (hb : env.oracle.createBlob
      (env.toBase64Utf8 (env.stringifyList st.updatedMusicList)) "base64" = .ok mb)
    (htr : env.oracle.createTree
      (st.treeItems ++ deletesOf env st.updatedMusicList ++ [manifestEntry mb]) tip = .ok ts)
    (hcm : env.oracle.createCommit commitMessage ts [tip] = .ok cs)
    (hup : env.oracle.updateRef ("heads/" ++ env.branch) cs = .ok ()) :
    pushMusic env ml mfi =
      ⟨[Call.getAuthToken, Call.getRef ("heads/" ++ env.branch)] ++ st.trace ++
        [Call.readTextFile manifestPath env.branch,
         Call.createBlob (env.toBase64Utf8 (env.stringifyList st.updatedMusicList)) "base64",
         Call.createTree
           (st.treeItems ++ deletesOf env st.updatedMusicList ++ [manifestEntry mb]) tip,
         Call.createCommit commitMessage ts [tip],
         Call.updateRef ("heads/" ++ env.branch) cs], .ok ()⟩ := by
  unfold pushMusic
  rw [ht, hr, hpu]
  simp only [deletesOf] at htr ⊢
  rw [hb]
  simp only [List.append_assoc] at htr ⊢
  rw [htr]
  simp only [hcm, hup]

lemma processUploads_countP_trace {ε : Type} (env : Env ε) (p : Call → Bool)
    (hp : ∀ a b, p (Call.createBlob a b) = false) :
    ∀ (items : List (String × MusicFileItem)) (st : UploadState),
      ((processUploads env items st).1.trace).countP p = (st.trace).countP p := by
  intro items
  induction items with
  | nil => intro st; rfl
  | cons hd rest ih =>
    intro st
    obtain ⟨url, it⟩ := hd
    simp only [processUploads]
    by_cases hmem : hashOf env it ∈ st.uploadedHashes
    · rw [if_pos hmem, ih]
    · rw [if_neg hmem]
      cases hcb : env.oracle.createBlob (env.fileToBase64 it.file.content) "base64" with
      | error e => simp [List.countP_append, List.countP_cons, hp]
      | ok b =>
        rw [ih]
        simp [List.countP_append, List.countP_cons, hp]

lemma processUploads_sha_some {ε : Type} (env : Env ε) :
    ∀ (items : List (String × MusicFileItem)) (st : UploadState) (e : TreeItem),
      e ∈ (processUploads env items st).1.treeItems →
        e ∈ st.treeItems ∨ e.sha ≠ none := by
  intro items
  induction items with
  | nil => intro st e he; exact Or.inl he
  | cons hd rest ih =>
    intro st e he
    obtain ⟨url, it⟩ := hd
    simp only [processUploads] at he
    by_cases hmem : hashOf env it ∈ st.uploadedHashes
    · rw [if_pos hmem] at he
      have h2 := ih _ e he
      exact h2
    · rw [if_neg hmem] at he
      cases hcb : env.oracle.createBlob (env.fileToBase64 it.file.content) "base64" with
      | error err => rw [hcb] at he; exact Or.inl he
      | ok b =>
        rw [hcb] at he
        rcases ih _ e he with hmem2 | hsha
        · rcases List.mem_append.mp hmem2 with h1 | h2
          · exact Or.inl h1
          · rw [List.mem_singleton] at h2
            subst h2
            exact Or.inr (by simp)
        · exact Or.inr hsha

lemma processUploads_single {ε : Type} (env : Env ε) (k : String) (i : MusicFileItem)
    (ml : List MusicItem) (b : String)
    (hb : env.oracle.createBlob (env.fileToBase64 i.file.content) "base64" = .ok b) :
    processUploads env [(k, i)] ⟨[], [], ml, []⟩ =
      (⟨[⟨"public/music/" ++ filenameOf env i, "100644", "blob", some b⟩],
        [hashOf env i], ml.map (remapTrack k (publicPathOf env i)),
        [Call.createBlob (env.fileToBase64 i.file.content) "base64"]⟩, none) := by
  simp [processUploads, hb, filenameOf, publicPathOf]

lemma map_remapTrack_eq_self (k p : String) (ml : List MusicItem)
    (h : ∀ m ∈ ml, m.url ≠ k) : ml.map (remapTrack k p) = ml := by
  induction ml with
  | nil => rfl
  | cons m t ih =>
    simp only [List.map_cons]
    rw [remapTrack, if_neg (h m (List.mem_cons_self m t)),
      ih (fun x hx => h x (List.mem_cons_of_mem m hx))]

/-- C6: a successful publish makes exactly one tree-creation call, whose
entry list is the blob add entries accumulated by the upload loop,
followed by the delete entries of the stale-file scan, followed by one
manifest entry pointing at a blob freshly created from the post-remap list
serialized by stringifyList; adds and deletes are never issued as separate
tree operations. -/
theorem single_tree_call_with_all_entries {ε : Type} (env : Env ε) (ml : List MusicItem)
    (mfi : Option (List (String × MusicFileItem)))
    (tok tip : String) (st : UploadState) (mb ts cs : String)
    (ht : env.oracle.getAuthToken = .ok tok)
    (hr : env.oracle.getRef ("heads/" ++ env.branch) = .ok tip)
    (hpu : processUploads env (itemsOfParam mfi) ⟨[], [], ml, []⟩ = (st, none))
    (hb : env.oracle.createBlob
      (env.toBase64Utf8 (env.stringifyList st.updatedMusicList)) "base64" = .ok mb)
    (htr : env.oracle.createTree
      (st.treeItems ++ deletesOf env st.updatedMusicList ++ [manifestEntry mb]) tip = .ok ts)
    (hcm : env.oracle.createCommit commitMessage ts [tip] = .ok cs)
    (hup : env.oracle.updateRef ("heads/" ++ env.branch) cs = .ok ()) :
    pushMusic env ml mfi =
      ⟨[Call.getAuthToken, Call.getRef ("heads/" ++ env.branch)] ++ st.trace ++
        [Call.readTextFile manifestPath env.branch,
         Call.createBlob (env.toBase64Utf8 (env.stringifyList st.updatedMusicList)) "base64",
         Call.createTree
           (st.treeItems ++ deletesOf env st.updatedMusicList ++ [manifestEntry mb]) tip,
         Call.createCommit commitMessage ts [tip],
         Call.updateRef ("heads/" ++ env.branch) cs], .ok ()⟩ ∧
    ((pushMusic env ml mfi).trace).countP isTreeCall = 1 := by
  have h := pushMusic_ok env ml mfi tok tip st mb ts cs ht hr hpu hb htr hcm hup
  refine ⟨h, ?_⟩
  rw [h]
  have htrace : (st.trace).countP isTreeCall = 0 := by
    have h0 := processUploads_countP_trace env isTreeCall (fun a b => rfl)
      (itemsOfParam mfi) ⟨[], [], ml, []⟩
    rw [hpu] at h0
    exact h0
  simp [List.countP_append, List.countP_cons, htrace, isTreeCall]

theorem single_tree_call_with_all_entries_witness :
    pushMusic testEnv [⟨"A", "/x"⟩] none =
      ⟨[Call.getAuthToken, Call.getRef "heads/main",
        Call.readTextFile manifestPath "main",
        Call.createBlob "json" "base64",
        Call.createTree [manifestEntry "bsha"] "tip",
        Call.createCommit commitMessage "tsha" ["tip"],
        Call.updateRef "heads/main" "csha"], .ok ()⟩ ∧
    ((pushMusic testEnv [⟨"A", "/x"⟩] none).trace).countP isTreeCall = 1 := by
  have h := single_tree_call_with_all_entries testEnv [⟨"A", "/x"⟩] none
    "tok" "tip" ⟨[], [], [⟨"A", "/x"⟩], []⟩ "bsha" "tsha" "csha"
    rfl rfl rfl rfl rfl rfl rfl
  exact ⟨h.1.trans (by rfl), h.2⟩

/-- C7: with no pending uploads the upload loop leaves the music list
untouched, so the manifest blob created by publish carries exactly the
serialization of the input list, in its original order and content. -/
theorem no_uploads_manifest_is_input {ε : Type} (env : Env ε) (ml : List MusicItem)
    (mfi : Option (List (String × MusicFileItem)))
    (tok tip mb ts cs : String)
    (hm : itemsOfParam mfi = [])
    (ht : env.oracle.getAuthToken = .ok tok)
    (hr : env.oracle.getRef ("heads/" ++ env.branch) = .ok tip)
    (hb : env.oracle.createBlob (env.toBase64Utf8 (env.stringifyList ml)) "base64" = .ok mb)
    (htr : env.oracle.createTree (deletesOf env ml ++ [manifestEntry mb]) tip = .ok ts)
    (hcm : env.oracle.createCommit commitMessage ts [tip] = .ok cs)
    (hup : env.oracle.updateRef ("heads/" ++ env.branch) cs = .ok ()) :
    (processUploads env (itemsOfParam mfi) ⟨[], [], ml, []⟩).1.updatedMusicList = ml ∧
    pushMusic env ml mfi =
      ⟨[Call.getAuthToken, Call.getRef ("heads/" ++ env.branch),
        Call.readTextFile manifestPath env.branch,
        Call.createBlob (env.toBase64Utf8 (env.stringifyList ml)) "base64",
        Call.createTree (deletesOf env ml ++ [manifestEntry mb]) tip,
        Call.createCommit commitMessage ts [tip],
        Call.updateRef ("heads/" ++ env.branch) cs], .ok ()⟩ := by
  have hpu : processUploads env (itemsOfParam mfi) ⟨[], [], ml, []⟩ =
      (⟨[], [], ml, []⟩, none) := by
    rw [hm]
    rfl
  constructor
  · rw [hpu]
  · have h := pushMusic_ok env ml mfi tok tip ⟨[], [], ml, []⟩ mb ts cs
      ht hr hpu hb htr hcm hup
    exact h

theorem no_uploads_manifest_is_input_witness :
    pushMusic testEnv [⟨"A", "/music/a.mp3"⟩, ⟨"B", "https://x"⟩] none =
      ⟨[Call.getAuthToken, Call.getRef "heads/main",
        Call.readTextFile manifestPath "main",
        Call.createBlob "json" "base64",
        Call.createTree [manifestEntry "bsha"] "tip",
        Call.createCommit commitMessage "tsha" ["tip"],
        Call.updateRef "heads/main" "csha"], .ok ()⟩ :=
  ((no_uploads_manifest_is_input testEnv [⟨"A", "/music/a.mp3"⟩, ⟨"B", "https://x"⟩] none
    "tok" "tip" "bsha" "tsha" "csha" rfl rfl rfl rfl rfl rfl rfl).2).trans (by rfl)

/-- C4: when the previous manifest is absent, or present but failing to
parse, the stale-file scan contributes nothing (the parse failure is
swallowed): the tree contains no delete entry (every entry keeps a
non-null sha) and the publish still runs through tree creation, commit,
and ref update to success. -/
theorem unparsable_previous_manifest_degrades {ε : Type} (env : Env ε)
    (ml : List MusicItem) (mfi : Option (List (String × MusicFileItem)))
    (tok tip : String) (st : UploadState) (mb ts cs : String)
    (hprev : env.oracle.readTextFile manifestPath env.branch = none ∨
      ∃ s, env.oracle.readTextFile manifestPath env.branch = some s ∧
        env.parseList s = none)
    (ht : env.oracle.getAuthToken = .ok tok)
    (hr : env.oracle.getRef ("heads/" ++ env.branch) = .ok tip)
    (hpu : processUploads env (itemsOfParam mfi) ⟨[], [], ml, []⟩ = (st, none))
    (hb : env.oracle.createBlob
      (env.toBase64Utf8 (env.stringifyList st.updatedMusicList)) "base64" = .ok mb)
    (htr : env.oracle.createTree (st.treeItems ++ [manifestEntry mb]) tip = .ok ts)
    (hcm : env.oracle.createCommit commitMessage ts [tip] = .ok cs)
    (hup : env.oracle.updateRef ("heads/" ++ env.branch) cs = .ok ()) :
    deletesOf env st.updatedMusicList = [] ∧
    pushMusic env ml mfi =
      ⟨[Call.getAuthToken, Call.getRef ("heads/" ++ env.branch)] ++ st.trace ++
        [Call.readTextFile manifestPath env.branch,
         Call.createBlob (env.toBase64Utf8 (env.stringifyList st.updatedMusicList)) "base64",
         Call.createTree (st.treeItems ++ [manifestEntry mb]) tip,
         Call.createCommit commitMessage ts [tip],
         Call.updateRef ("heads/" ++ env.branch) cs], .ok ()⟩ ∧
    (∀ e ∈ st.treeItems ++ [manifestEntry mb], e.sha ≠ none) := by
  have hdel : deletesOf env st.updatedMusicList = [] := by
    rcases hprev with h | ⟨s, hs, hp⟩
    · simp [deletesOf, h]
    · simp [deletesOf, hs, hp]
  have htr2 : env.oracle.createTree
      (st.treeItems ++ deletesOf env st.updatedMusicList ++ [manifestEntry mb]) tip =
        .ok ts := by
    rw [hdel]
    simpa using htr
  refine ⟨hdel, ?_, ?_⟩
  · have h := pushMusic_ok env ml mfi tok tip st mb ts cs ht hr hpu hb htr2 hcm hup
    rw [h, hdel]
    simp
  · intro e he
    rcases List.mem_append.mp he with h1 | h2
    · have h3 : e ∈ (processUploads env (itemsOfParam mfi) ⟨[], [], ml, []⟩).1.treeItems := by
        rw [hpu]
        exact h1
      rcases processUploads_sha_some env (itemsOfParam mfi) ⟨[], [], ml, []⟩ e h3 with
        h4 | h4
      · exact absurd h4 (List.not_mem_nil e)
      · exact h4
    · rw [List.mem_singleton] at h2
      subst h2
      simp [manifestEntry]

theorem unparsable_previous_manifest_degrades_witness :
    deletesOf badParseEnv [⟨"A", "/x"⟩] = [] ∧
    (pushMusic badParseEnv [⟨"A", "/x"⟩] none).result = .ok () := by
  have h := unparsable_previous_manifest_degrades badParseEnv [⟨"A", "/x"⟩] none
    "tok" "tip" ⟨[], [], [⟨"A", "/x"⟩], []⟩ "bsha" "tsha" "csha"
    (Or.inr ⟨"notjson", rfl, rfl⟩) rfl rfl rfl rfl rfl rfl rfl
  exact ⟨h.1, by rw [h.2.1]⟩

/-- C10: a pending upload whose content hash is new is uploaded and its
add entry committed in the tree even when no track of the desired list
carries its transient key; the manifest then serializes the unchanged
input list, so the committed blob is not referenced by the new
manifest. -/
theorem unreferenced_upload_still_committed {ε : Type} (env : Env ε)
    (ml : List MusicItem) (k : String) (i : MusicFileItem)
    (tok tip b mb ts cs : String)
    (hk : ∀ m ∈ ml, m.url ≠ k)
    (ht : env.oracle.getAuthToken = .ok tok)
    (hr : env.oracle.getRef ("heads/" ++ env.branch) = .ok tip)
    (hb : env.oracle.createBlob (env.fileToBase64 i.file.content) "base64" = .ok b)
    (hbm : env.oracle.createBlob (env.toBase64Utf8 (env.stringifyList ml)) "base64" = .ok mb)
    (htr : env.oracle.createTree
      ([⟨"public/music/" ++ filenameOf env i, "100644", "blob", some b⟩] ++
        deletesOf env ml ++ [manifestEntry mb]) tip = .ok ts)
    (hcm : env.oracle.createCommit commitMessage ts [tip] = .ok cs)
    (hup : env.oracle.updateRef ("heads/" ++ env.branch) cs = .ok ()) :
    pushMusic env ml (some [(k, i)]) =
      ⟨[Call.getAuthToken, Call.getRef ("heads/" ++ env.branch),
        Call.createBlob (env.fileToBase64 i.file.content) "base64",
        Call.readTextFile manifestPath env.branch,
        Call.createBlob (env.toBase64Utf8 (env.stringifyList ml)) "base64",
        Call.createTree
          ([⟨"public/music/" ++ filenameOf env i, "100644", "blob", some b⟩] ++
            deletesOf env ml ++ [manifestEntry mb]) tip,
        Call.createCommit commitMessage ts [tip],
        Call.updateRef ("heads/" ++ env.branch) cs], .ok ()⟩ ∧
    (⟨"public/music/" ++ filenameOf env i, "100644", "blob", some b⟩ : TreeItem) ∈
      ([⟨"public/music/" ++ filenameOf env i, "100644", "blob", some b⟩] ++
        deletesOf env ml ++ [manifestEntry mb]) := by
  have hpu : processUploads env (itemsOfParam (some [(k, i)])) ⟨[], [], ml, []⟩ =
      (⟨[⟨"public/music/" ++ filenameOf env i, "100644", "blob", some b⟩],
        [hashOf env i], ml,
        [Call.createBlob (env.fileToBase64 i.file.content) "base64"]⟩, none) := by
    have h1 : itemsOfParam (some [(k, i)]) = [(k, i)] := rfl
    rw [h1, processUploads_single env k i ml b hb,
      map_remapTrack_eq_self k (publicPathOf env i) ml hk]
  have h := pushMusic_ok env ml (some [(k, i)]) tok tip
    ⟨[⟨"public/music/" ++ filenameOf env i, "100644", "blob", some b⟩],
      [hashOf env i], ml,
      [Call.createBlob (env.fileToBase64 i.file.content) "base64"]⟩ mb ts cs
    ht hr hpu hbm htr hcm hup
  refine ⟨?_, List.mem_append_left _ (List.mem_append_left _ (List.mem_singleton.mpr rfl))⟩
  exact h

theorem unreferenced_upload_still_committed_witness :
    pushMusic testEnv [⟨"A", "/other"⟩] (some [("transient-key", ⟨⟨"a.mp3", [0]⟩, none⟩)]) =
      ⟨[Call.getAuthToken, Call.getRef "heads/main",
        Call.createBlob "b64" "base64",
        Call.readTextFile manifestPath "main",
        Call.createBlob "json" "base64",
        Call.createTree
          [⟨"public/music/h.mp3", "100644", "blob", some "bsha"⟩, manifestEntry "bsha"] "tip",
        Call.createCommit commitMessage "tsha" ["tip"],
        Call.updateRef "heads/main" "csha"], .ok ()⟩ := by
  have h := unreferenced_upload_still_committed testEnv [⟨"A", "/other"⟩] "transient-key"
    ⟨⟨"a.mp3", [0]⟩, none⟩ "tok" "tip" "bsha" "bsha" "tsha" "csha"
    (by decide) rfl rfl rfl rfl rfl rfl rfl
  exact h.1.trans (by rfl)

/-- C8: whichever remote step rejects first, pushMusic stops there: the
outcome carries exactly the calls made up to and including the failed one
(so no later operation is invoked and nothing is retried) and the result
is that very error; in particular a rejected final ref update surfaces its
conflict error with no further step executed. -/
theorem failed_step_aborts {ε : Type} (env : Env ε) (ml : List MusicItem)
    (mfi : Option (List (String × MusicFileItem))) :
    (∀ e, env.oracle.getAuthToken = .error e →
      pushMusic env ml mfi = ⟨[Call.getAuthToken], .error e⟩) ∧
    (∀ tok e, env.oracle.getAuthToken = .ok tok →
      env.oracle.getRef ("heads/" ++ env.branch) = .error e →
      pushMusic env ml mfi =
        ⟨[Call.getAuthToken, Call.getRef ("heads/" ++ env.branch)], .error e⟩) ∧
    (∀ tok tip st e, env.oracle.getAuthToken = .ok tok →
      env.oracle.getRef ("heads/" ++ env.branch) = .ok tip →
      processUploads env (itemsOfParam mfi) ⟨[], [], ml, []⟩ = (st, some e) →
      pushMusic env ml mfi =
        ⟨[Call.getAuthToken, Call.getRef ("heads/" ++ env.branch)] ++ st.trace,
          .error e⟩) ∧
    (∀ tok tip st e, env.oracle.getAuthToken = .ok tok →
      env.oracle.getRef ("heads/" ++ env.branch) = .ok tip →
      processUploads env (itemsOfParam mfi) ⟨[], [], ml, []⟩ = (st, none) →
      env.oracle.createBlob
        (env.toBase64Utf8 (env.stringifyList st.updatedMusicList)) "base64" = .error e →
      pushMusic env ml mfi =
        ⟨[Call.getAuthToken, Call.getRef ("heads/" ++ env.branch)] ++ st.trace ++
          [Call.readTextFile manifestPath env.branch,
           Call.createBlob
             (env.toBase64Utf8 (env.stringifyList st.updatedMusicList)) "base64"],
          .error e⟩) ∧
    (∀ tok tip st mb e, env.oracle.getAuthToken = .ok tok →
      env.oracle.getRef ("heads/" ++ env.branch) = .ok tip →
      processUploads env (itemsOfParam mfi) ⟨[], [], ml, []⟩ = (st, none) →
      env.oracle.createBlob
        (env.toBase64Utf8 (env.stringifyList st.updatedMusicList)) "base64" = .ok mb →
      env.oracle.createTree
        (st.treeItems ++ deletesOf env st.updatedMusicList ++ [manifestEntry mb]) tip =
          .error e →
      pushMusic env ml mfi =
        ⟨[Call.getAuthToken, Call.getRef ("heads/" ++ env.branch)] ++ st.trace ++
          [Call.readTextFile manifestPath env.branch,
           Call.createBlob
             (env.toBase64Utf8 (env.stringifyList st.updatedMusicList)) "base64",
           Call.createTree
             (st.treeItems ++ deletesOf env st.updatedMusicList ++ [manifestEntry mb])
             tip],
          .error e⟩) ∧
    (∀ tok tip st mb ts e, env.oracle.getAuthToken = .ok tok →
      env.oracle.getRef ("heads/" ++ env.branch) = .ok tip →
      processUploads env (itemsOfParam mfi) ⟨[], [], ml, []⟩ = (st, none) →
      env.oracle.createBlob
        (env.toBase64Utf8 (env.stringifyList st.updatedMusicList)) "base64" = .ok mb →
      env.oracle.createTree
        (st.treeItems ++ deletesOf env st.updatedMusicList ++ [manifestEntry mb]) tip =
          .ok ts →
      env.oracle.createCommit commitMessage ts [tip] = .error e →
      pushMusic env ml mfi =
        ⟨[Call.getAuthToken, Call.getRef ("heads/" ++ env.branch)] ++ st.trace ++
          [Call.readTextFile manifestPath env.branch,
           Call.createBlob
             (env.toBase64Utf8 (env.stringifyList st.updatedMusicList)) "base64",
           Call.createTree
             (st.treeItems ++ deletesOf env st.updatedMusicList ++ [manifestEntry mb])
             tip,
           Call.createCommit commitMessage ts [tip]],
          .error e⟩) ∧
    (∀ tok tip st mb ts cs e, env.oracle.getAuthToken = .ok tok →
      env.oracle.getRef ("heads/" ++ env.branch) = .ok tip →
      processUploads env (itemsOfParam mfi) ⟨[], [], ml, []⟩ = (st, none) →
      env.oracle.createBlob
        (env.toBase64Utf8 (env.stringifyList st.updatedMusicList)) "base64" = .ok mb →
      env.oracle.createTree
        (st.treeItems ++ deletesOf env st.updatedMusicList ++ [manifestEntry mb]) tip =
          .ok ts →
      env.oracle.createCommit commitMessage ts [tip] = .ok cs →
      env.oracle.updateRef ("heads/" ++ env.branch) cs = .error e →
      pushMusic env ml mfi =
        ⟨[Call.getAuthToken, Call.getRef ("heads/" ++ env.branch)] ++ st.trace ++
          [Call.readTextFile manifestPath env.branch,
           Call.createBlob
             (env.toBase64Utf8 (env.stringifyList st.updatedMusicList)) "base64",
           Call.createTree
             (st.treeItems ++ deletesOf env st.updatedMusicList ++ [manifestEntry mb])
             tip,
           Call.createCommit commitMessage ts [tip],
           Call.updateRef ("heads/" ++ env.branch) cs],
          .error e⟩) := by
  refine ⟨?_, ?_, ?_, ?_, ?_, ?_, ?_⟩
  · intro e h
    unfold pushMusic
    rw [h]
  · intro tok e h1 h2
    unfold pushMusic
    rw [h1, h2]
  · intro tok tip st e h1 h2 h3
    unfold pushMusic
    rw [h1, h2, h3]
  · intro tok tip st e h1 h2 h3 h4
    unfold pushMusic
    rw [h1, h2, h3]
    simp only [deletesOf]
    simp only [h4]
  · intro tok tip st mb e h1 h2 h3 h4 h5
    unfold pushMusic
    rw [h1, h2, h3]
    simp only [deletesOf] at h5 ⊢
    rw [h4]
    simp only [List.append_assoc] at h5 ⊢
    simp only [h5]
  · intro tok tip st mb ts e h1 h2 h3 h4 h5 h6
    unfold pushMusic
    rw [h1, h2, h3]
    simp only [deletesOf] at h5 ⊢
    rw [h4]
    simp only [List.append_assoc] at h5 ⊢
    rw [h5]
    simp only [h6]
  · intro tok tip st mb ts cs e h1 h2 h3 h4 h5 h6 h7
    unfold pushMusic
    rw [h1, h2, h3]
    simp only [deletesOf] at h5 ⊢
    rw [h4]
    simp only [List.append_assoc] at h5 ⊢
    rw [h5]
    simp only [h6, h7]

theorem failed_step_aborts_witness :
    pushMusic conflictEnv [] none =
      ⟨[Call.getAuthToken, Call.getRef "heads/main",
        Call.readTextFile manifestPath "main",
        Call.createBlob "json" "base64",
        Call.createTree [manifestEntry "bsha"] "tip",
        Call.createCommit commitMessage "tsha" ["tip"],
        Call.updateRef "heads/main" "csha"], .error "conflict"⟩ := by
  have h := (failed_step_aborts conflictEnv [] none).2.2.2.2.2.2
    "tok" "tip" ⟨[], [], [], []⟩ "bsha" "tsha" "csha" "conflict"
    rfl rfl rfl rfl rfl rfl rfl
  exact h.trans (by rfl)
